import Mathlib

/-!
Verification development for the payload-cloudinary storage adapter.

Strings are modelled as `List Char`; machine integers do not occur in the
verified core.  JavaScript `String.prototype.toLowerCase` is modelled by
`Char.toLower` applied pointwise, which agrees with it on the ASCII
fragment that the sanitizers and extension tables operate on.
-/

/-- Allowed-character test of the strict sanitizer charset, the regex class
`[a-z0-9]` from `validation.ts` (`sanitizeString`) and `src/utils.ts`
(`sanitizeForPublicID`). -/
def strictAllowed (c : Char) : Bool :=
  (97 ≤ c.toNat && c.toNat ≤ 122) || (48 ≤ c.toNat && c.toNat ≤ 57)

/-- Allowed-character test of the identifier-safe charset, the regex class
`[a-z0-9_.-]` from the `handleUpload` variant (`part_002`,
`sanitizeForPublicID`). -/
def idSafeAllowed (c : Char) : Bool :=
  strictAllowed c || c == '_' || c == '.' || c == '-'

/-- One step of the regex replacement `replace(/[^...]/g, "-")`: a character
outside the allowed class becomes a hyphen. -/
def replaceChar (allowed : Char → Bool) (c : Char) : Char :=
  if allowed c then c else '-'

/-- Lower-casing followed by the per-character replacement, applied to the
whole string: `str.toLowerCase().replace(/[^...]/g, "-")`. -/
def sanitizeMap (allowed : Char → Bool) (s : List Char) : List Char :=
  s.map (fun c => replaceChar allowed (Char.toLower c))

/-- The hyphen-run replacement (regex dash-plus to a single dash): runs of
consecutive hyphens collapse to a single hyphen. -/
def collapseHyphens : List Char → List Char
  | [] => []
  | [a] => [a]
  | a :: b :: t =>
    if a = '-' ∧ b = '-' then collapseHyphens (b :: t)
    else a :: collapseHyphens (b :: t)

/-- Drop a single leading hyphen, the `^-` alternative of
the anchored hyphen replacement (regex caret-dash or dash-dollar to empty). -/
def dropLeadingHyphen : List Char → List Char
  | [] => []
  | a :: t => if a = '-' then t else a :: t

/-- Drop a single trailing hyphen, the `-$` alternative of
the anchored hyphen replacement (regex caret-dash or dash-dollar to empty). -/
def dropTrailingHyphen (s : List Char) : List Char :=
  (dropLeadingHyphen s.reverse).reverse

/-- The whole anchored hyphen replacement: one leading and one trailing
hyphen removed. -/
def stripHyphens (s : List Char) : List Char :=
  dropTrailingHyphen (dropLeadingHyphen s)

/-- The common sanitizer pipeline: lower-case, replace disallowed characters
by hyphens, collapse hyphen runs, strip a leading and a trailing hyphen. -/
def sanitizeCore (allowed : Char → Bool) (s : List Char) : List Char :=
  stripHyphens (collapseHyphens (sanitizeMap allowed s))

/-- `sanitizeForPublicID` of `src/utils.ts` (strict charset, no length
limit). -/
def sanitizeForPublicIDUtils (s : List Char) : List Char :=
  sanitizeCore strictAllowed s

/-- `sanitizeForPublicID` of the `handleUpload` variant in `part_002`
(identifier-safe charset `[a-z0-9_.-]`, no length limit). -/
def sanitizeForPublicIDUpload (s : List Char) : List Char :=
  sanitizeCore idSafeAllowed s

/-- `sanitizeString` of `validation.ts`: the strict pipeline followed by
`substring(0, 100)`. -/
def sanitizeString (s : List Char) : List Char :=
  (sanitizeCore strictAllowed s).take 100

/-! ### Node `path.posix` functions used by the adapter -/

/-- `path.posix.basename(p)`: drop trailing slashes, then take the part
after the last slash; an all-slash nonempty path has basename `"/"`. -/
def pathBasename (s : List Char) : List Char :=
  let t := s.reverse.dropWhile (fun c => c == '/')
  if s ≠ [] ∧ t = [] then ['/']
  else (t.takeWhile (fun c => c != '/')).reverse

/-- `path.posix.basename(p, ext)`: the basename with the suffix `ext`
removed when it is a proper suffix (the suffix is kept when it equals the
whole basename, matching Node). -/
def pathBasenameExt (s ext : List Char) : List Char :=
  let b := pathBasename s
  if ext ≠ [] ∧ b ≠ ext ∧ ext.isSuffixOf b then b.take (b.length - ext.length)
  else b

/-- `path.posix.extname(p)`: from the last dot of the basename to the end;
empty when there is no dot, when the dot is the first character of the
basename, or when the basename is `".."`. -/
def pathExtname (s : List Char) : List Char :=
  let b := pathBasename s
  if b = ['.', '.'] then []
  else
    let rev := b.reverse
    let afterDot := rev.takeWhile (fun c => c != '.')
    if afterDot.length == rev.length then []
    else if afterDot.length + 1 == rev.length then []
    else '.' :: afterDot.reverse

/-- `path.posix.dirname(p)`: scan from the end skipping trailing slashes and
the final component; index 0 is never examined, and the root cases mirror
Node. -/
def pathDirname (s : List Char) : List Char :=
  let hasRoot := s.head? == some '/'
  let u := (s.drop 1).reverse
  let u1 := u.dropWhile (fun c => c == '/')
  let u2 := u1.dropWhile (fun c => c != '/')
  if u2.isEmpty then (if hasRoot then ['/'] else ['.'])
  else if hasRoot && u2.length == 1 then ['/', '/']
  else s.take u2.length

/-- Split a path at slashes. -/
def splitSlashAux : List Char → List Char → List (List Char)
  | [], cur => [cur.reverse]
  | c :: rest, cur =>
    if c = '/' then cur.reverse :: splitSlashAux rest []
    else splitSlashAux rest (c :: cur)

/-- Split a path at slashes (entry point). -/
def splitSlash (s : List Char) : List (List Char) :=
  splitSlashAux s []

/-- Join segments with slashes. -/
def intercalateSlash : List (List Char) → List Char
  | [] => []
  | [x] => x
  | x :: xs => x ++ '/' :: intercalateSlash xs

/-- Segment normalization of `path.posix.normalize`: empty and `"."`
segments vanish, `".."` pops the previous segment, and above-root `".."`
segments are kept only for relative paths. -/
def normalizeSegs (allowAbove : Bool) (segs : List (List Char)) : List (List Char) :=
  segs.foldl
    (fun acc seg =>
      if seg.isEmpty || seg == ['.'] then acc
      else if seg == ['.', '.'] then
        match acc.getLast? with
        | some l => if l = ['.', '.'] then acc ++ [seg] else acc.dropLast
        | none => if allowAbove then [seg] else []
      else acc ++ [seg])
    []

/-- `path.posix.normalize(p)`. -/
def normalizePath (p : List Char) : List Char :=
  if p.isEmpty then ['.']
  else
    let isAbs := p.head? == some '/'
    let trail := p.getLast? == some '/'
    let core := intercalateSlash (normalizeSegs (!isAbs) (splitSlash p))
    if core.isEmpty then
      if isAbs then ['/'] else if trail then ['.', '/'] else ['.']
    else
      let core2 := if trail then core ++ ['/'] else core
      if isAbs then '/' :: core2 else core2

/-- `path.posix.join(a, b)`: empty arguments vanish; the rest are joined with
slashes and normalized; the empty join is `"."`. -/
def posixJoin2 (a b : List Char) : List Char :=
  let joined := intercalateSlash (([a, b]).filter (fun x => !x.isEmpty))
  if joined.isEmpty then ['.'] else normalizePath joined

/-- `path.posix.join(a, b, c)`. -/
def posixJoin3 (a b c : List Char) : List Char :=
  let joined := intercalateSlash (([a, b, c]).filter (fun x => !x.isEmpty))
  if joined.isEmpty then ['.'] else normalizePath joined

/-- The regex replacement `replace(new RegExp("[.][^/.]+$"), "")` written in
the sources as a literal: strip a final dot-extension whose characters
contain neither a slash nor a dot.  Used by `handleDelete.ts`,
`generateURL.ts` and the second lookup attempt of `staticHandler.ts`. -/
def stripExtRegex (s : List Char) : List Char :=
  let rev := s.reverse
  let seg := rev.takeWhile (fun c => c != '.' && c != '/')
  if seg.isEmpty then s
  else
    match rev.drop seg.length with
    | '.' :: _ => (rev.drop (seg.length + 1)).reverse
    | _ => s

/-! ### Extension classifier -/

/-- Modelled from the spec: `constants.ts` is not among the sources; the
spec fixes three extension sets compared case-insensitively (image, video,
raw), enumerated here as the lowercase lists the repository's unit tests
exercise. -/
def IMAGE_EXTENSIONS : List (List Char) :=
  [".jpg".data, ".jpeg".data, ".png".data, ".gif".data, ".webp".data,
   ".svg".data, ".bmp".data, ".tiff".data]

/-- Modelled from the spec: the video extension set (see
`IMAGE_EXTENSIONS`). -/
def VIDEO_EXTENSIONS : List (List Char) :=
  [".mp4".data, ".webm".data, ".ogg".data, ".mov".data, ".avi".data,
   ".wmv".data, ".flv".data, ".mkv".data, ".m4v".data]

/-- Modelled from the spec: the raw/document extension set (see
`IMAGE_EXTENSIONS`). -/
def RAW_EXTENSIONS : List (List Char) :=
  [".pdf".data, ".doc".data, ".docx".data, ".xls".data, ".xlsx".data,
   ".ppt".data, ".pptx".data, ".txt".data, ".zip".data, ".rar".data,
   ".7z".data, ".tar".data, ".gz".data, ".csv".data, ".json".data,
   ".xml".data, ".md".data]

/-- `getResourceType` of `src/utils.ts`: membership tests against the three
fixed sets, `"auto"` as the default. -/
def getResourceType (ext : List Char) : List Char :=
  if VIDEO_EXTENSIONS.contains ext then "video".data
  else if IMAGE_EXTENSIONS.contains ext then "image".data
  else if RAW_EXTENSIONS.contains ext then "raw".data
  else "auto".data

/-- Extension classification as performed at every call site
(`staticHandler.ts` line 92, `handleUpload.ts`, `generateURL.ts`): the
extension is lower-cased before `getResourceType`. -/
def classifyExtension (ext : List Char) : List Char :=
  getResourceType (ext.map Char.toLower)

/-! ### Identifier generation -/

/-- `PublicIDOptions` of `types.ts`, with the `keepRawExtension` flag that
only the `part_002` generator consults.  Absent fields model absent JS
object keys. -/
structure PublicIDOptions where
  enabled : Option Bool := none
  useFilename : Option Bool := none
  uniqueFilename : Option Bool := none
  keepRawExtension : Option Bool := none
  generateCustom : Option (List Char → List Char → List Char → List Char) := none

/-- Optional-chaining field access `publicIDOptions?.field`. -/
def optField (opts : Option PublicIDOptions) (f : PublicIDOptions → Option Bool) : Option Bool :=
  match opts with
  | some o => f o
  | none => none

/-- Optional-chaining access to the custom generator function. -/
def optCustom (opts : Option PublicIDOptions) :
    Option (List Char → List Char → List Char → List Char) :=
  match opts with
  | some o => o.generateCustom
  | none => none

/-- `generatePublicID` of `src/utils.ts` (three arguments, strict sanitizer,
no extension preservation).  `now` models `Date.now()`. -/
def generatePublicIDUtils (now : Nat) (filename folderPath : List Char)
    (opts : Option PublicIDOptions) : List Char :=
  match optCustom opts with
  | some g => g filename (pathDirname folderPath) (pathBasename folderPath)
  | none =>
    if optField opts (fun o => o.enabled) == some false then
      posixJoin2 folderPath
        (sanitizeForPublicIDUtils (pathBasenameExt filename (pathExtname filename)))
    else
      let useFilename := optField opts (fun o => o.useFilename) != some false
      let uniqueFilename := optField opts (fun o => o.uniqueFilename) != some false
      let timestamp := if uniqueFilename then '_' :: (Nat.repr now).data else []
      if useFilename then
        posixJoin2 folderPath
          (sanitizeForPublicIDUtils (pathBasenameExt filename (pathExtname filename)) ++ timestamp)
      else
        posixJoin2 folderPath ("media".data ++ timestamp)

/-- `generatePublicID` of the `handleUpload` variant in `part_002` (four
arguments, identifier-safe sanitizer, conditional extension preservation via
`keepRawExtension` and the `"raw"` resource type). -/
def generatePublicIDUpload (now : Nat) (filename folderPath resourceType : List Char)
    (opts : Option PublicIDOptions) : List Char :=
  match optCustom opts with
  | some g => g filename (pathDirname folderPath) (pathBasename folderPath)
  | none =>
    let shouldKeepExtension :=
      optField opts (fun o => o.keepRawExtension) == some true
        && resourceType == "raw".data
    if optField opts (fun o => o.enabled) == some false then
      let nameToProcess := pathBasename filename
      let finalNamePart :=
        if shouldKeepExtension then
          let ext := pathExtname nameToProcess
          sanitizeForPublicIDUpload (pathBasenameExt nameToProcess ext) ++ ext
        else
          sanitizeForPublicIDUpload
            (pathBasenameExt nameToProcess (pathExtname nameToProcess))
      posixJoin2 folderPath finalNamePart
    else
      let useFilename := optField opts (fun o => o.useFilename) != some false
      let uniqueFilename := optField opts (fun o => o.uniqueFilename) != some false
      let timestamp := if uniqueFilename then '_' :: (Nat.repr now).data else []
      let finalNamePart :=
        if useFilename then
          let nameToProcess := pathBasename filename
          let baseNameSegment :=
            if shouldKeepExtension then
              let ext := pathExtname nameToProcess
              sanitizeForPublicIDUpload (pathBasenameExt nameToProcess ext) ++ ext
            else
              sanitizeForPublicIDUpload
                (pathBasenameExt nameToProcess (pathExtname nameToProcess))
          baseNameSegment ++ timestamp
        else
          "media".data ++ timestamp
      posixJoin2 folderPath finalNamePart

/-! ### Static handler (`staticHandler.ts`) -/

/-- The metadata returned by the remote `api.resource` call; only the
`secure_url` field is consumed by the handler. -/
structure CloudResource where
  secure_url : List Char
deriving DecidableEq

/-- The result of the upstream `fetch` of the delivery URL: HTTP `ok` flag,
blob type and bytes, and the optional `etag` response header. -/
structure FetchResp where
  ok : Bool
  blobType : List Char
  blobData : List Char
  etagHeader : Option (List Char)
deriving DecidableEq

/-- The response emitted by the handler: status, the headers it sets
explicitly, and the body (`none` models a `null` body). -/
structure HttpResponse where
  status : Nat
  headers : List (List Char × List Char)
  body : Option (List Char)
deriving DecidableEq

/-- The external world of one static request: `lookup id rtype` models
`cloudinary.api.resource(id, resource_type)` (`none` covers both a thrown
not-found error and a missing `secure_url` carrier), and `fetchUrl` models
the upstream `fetch` (`none` models a thrown exception). -/
structure StaticEnv where
  lookup : List Char → List Char → Option CloudResource
  fetchUrl : List Char → Option FetchResp

/-- Whether one lookup attempt of `fetchResource` fails: the call returned
nothing, or the returned record has a falsy (empty) `secure_url`. -/
def attemptFails (lookup : List Char → List Char → Option CloudResource)
    (id rtype : List Char) : Bool :=
  match lookup id rtype with
  | none => true
  | some r => r.secure_url.isEmpty

/-- The loop body of `fetchResource`: try each candidate id in order,
recording every attempt actually made; stop at the first id whose result is
truthy with a truthy `secure_url`. -/
def fetchResourceGo (lookup : List Char → List Char → Option CloudResource)
    (rtype : List Char) : List (List Char) → List (List Char) × Option CloudResource
  | [] => ([], none)
  | id :: rest =>
    match lookup id rtype with
    | some r =>
      if r.secure_url.isEmpty then
        let p := fetchResourceGo lookup rtype rest
        (id :: p.1, p.2)
      else ([id], some r)
    | none =>
      let p := fetchResourceGo lookup rtype rest
      (id :: p.1, p.2)

/-- `fetchResource` of `staticHandler.ts`: the attempt list is the full
public id followed by the id with its extension stripped; the result is the
trace of attempts and the resource found (`none` models the thrown
`CloudinaryResourceError`). -/
def fetchResource (lookup : List Char → List Char → Option CloudResource)
    (rtype publicId : List Char) : List (List Char) × Option CloudResource :=
  fetchResourceGo lookup rtype [publicId, stripExtRegex publicId]

/-- Substring test used for `req.url?.includes("thumbnail=true")`. -/
def containsSub (s sub : List Char) : Bool :=
  match s with
  | [] => sub.isEmpty
  | _ :: rest => sub.isPrefixOf s || containsSub rest sub

/-- Fuelled splitter on a nonempty separator, the semantics of
`String.prototype.split`: leftmost non-overlapping occurrences. -/
def splitOnSubFuel (sep : List Char) : Nat → List Char → List Char → List (List Char)
  | _, [], cur => [cur.reverse]
  | 0, s, cur => [cur.reverse ++ s]
  | Nat.succ n, c :: rest, cur =>
    if sep.isPrefixOf (c :: rest) then
      cur.reverse :: splitOnSubFuel sep n (rest.drop (sep.length - 1)) []
    else splitOnSubFuel sep n rest (c :: cur)

/-- `s.split(sep)` for a nonempty separator. -/
def splitOnSub (sep s : List Char) : List (List Char) :=
  splitOnSubFuel sep s.length s []

/-- `processResourceUrl` of `staticHandler.ts`: for a PDF-thumbnail request
split at `"/upload/"` and, when the split has exactly two parts, reinsert
the page-extraction transformation. -/
def processResourceUrl (url : List Char) (isPdfThumbnail : Bool) : List Char :=
  if !isPdfThumbnail then url
  else
    match splitOnSub "/upload/".data url with
    | [a, b] => a ++ "/upload/pg_1,f_jpg,q_auto/".data ++ b
    | _ => url

/-- The ETag validator the handler uses:
`response.headers.get("etag") || quoted Date.now()`. -/
def computeResponseEtag (etagHeader : Option (List Char)) (now : Nat) : List Char :=
  match etagHeader with
  | some e => if e.isEmpty then '"' :: (Nat.repr now).data ++ ['"'] else e
  | none => '"' :: (Nat.repr now).data ++ ['"']

/-- The serve path of `getHandler` after a resource has been resolved:
process the URL, fetch it, and emit 404 / 304 / 200 / 500 as the code
does. -/
def serveResolved (env : StaticEnv) (isPdfThumbnail : Bool)
    (ifNoneMatch : Option (List Char)) (now : Nat)
    (result : CloudResource) : HttpResponse :=
  let processedUrl := processResourceUrl result.secure_url isPdfThumbnail
  match env.fetchUrl processedUrl with
  | none =>
    { status := 500, headers := [], body := some "Internal Server Error".data }
  | some resp =>
    if !resp.ok then { status := 404, headers := [], body := none }
    else
      let responseEtag := computeResponseEtag resp.etagHeader now
      if ifNoneMatch == some responseEtag then
        { status := 304
          headers := [("Content-Type".data, resp.blobType),
                      ("ETag".data, responseEtag)]
          body := none }
      else
        { status := 200
          headers := [("Content-Type".data, resp.blobType),
                      ("Content-Length".data, (Nat.repr resp.blobData.length).data),
                      ("Cache-Control".data, "public, max-age=31536000".data)]
                     ++ (if responseEtag.isEmpty then [] else [("ETag".data, responseEtag)])
          body := some resp.blobData }

/-- `getHandler` of `staticHandler.ts` for one request: build the public id
from folder, prefix and filename, classify the extension, resolve the
resource with the two-attempt lookup (a failed resolution is the caught
`CloudinaryResourceError`, a 404), then serve. -/
def staticHandlerRun (env : StaticEnv) (folder pref filename reqUrl : List Char)
    (ifNoneMatch : Option (List Char)) (now : Nat) : HttpResponse :=
  let filePath := posixJoin3 folder pref filename
  let fileExt := (pathExtname filename).map Char.toLower
  let resourceType := getResourceType fileExt
  let isPdfThumbnail := fileExt == ".pdf".data && containsSub reqUrl "thumbnail=true".data
  match (fetchResource env.lookup resourceType filePath).2 with
  | none => { status := 404, headers := [], body := none }
  | some result => serveResolved env isPdfThumbnail ifNoneMatch now result

/-! ### Delete handler (`handleDelete.ts`) -/

/-- Outcome of `cloudinary.uploader.destroy`: a result record whose
`result` field is a string, or a thrown error. -/
inductive DestroyOutcome where
  | success (res : List Char)
  | threw
deriving DecidableEq

/-- What the host observes from `handleDelete`: a normal return, or a
thrown `CloudinaryDeleteError` carrying the offending id or filename. -/
inductive DeleteResult where
  | ok
  | deleteError (ident : List Char)
deriving DecidableEq

/-- The public id `handleDelete.ts` recomputes from its inputs:
`path.posix.join(folder, filename)` with the final extension stripped. -/
def deleteKey (folder filename : List Char) : List Char :=
  stripExtRegex (posixJoin2 folder filename)

/-- `getHandleDelete` of `handleDelete.ts` applied to one event: destroy the
recomputed key; `"ok"` and `"not found"` return normally, any other result
throws `CloudinaryDeleteError` with the public id, and a thrown remote error
is wrapped into a `CloudinaryDeleteError` with the filename and
rethrown. -/
def handleDelete (destroy : List Char → DestroyOutcome)
    (folder filename : List Char) : DeleteResult :=
  let publicId := deleteKey folder filename
  match destroy publicId with
  | .success res =>
    if res = "ok".data then .ok
    else if res = "not found".data then .ok
    else .deleteError publicId
  | .threw => .deleteError filename

/-! ### Properties of the sanitizer pipeline -/

/-- Adjacent characters are never both hyphens. -/
def Rha (a b : Char) : Prop := ¬(a = '-' ∧ b = '-')

/-- No two adjacent hyphens anywhere in the string. -/
def NoDoubleHyphen (s : List Char) : Prop := List.Chain' Rha s

/-- Every character of a sanitizer output is either allowed or a single
hyphen. -/
def okCharP (allowed : Char → Bool) (c : Char) : Prop :=
  allowed c = true ∨ c = '-'

/-- An allowed-set is lower-fixing when its members are untouched by
`Char.toLower`; both sanitizer charsets are. -/
def LowerFix (allowed : Char → Bool) : Prop :=
  ∀ c, allowed c = true → Char.toLower c = c

/-- A concrete remote store holding only the extension-stripped key
`"media/test"`. -/
def demoLookup : List Char → List Char → Option CloudResource :=
  fun id _ =>
    if id = "media/test".data then
      some { secure_url := "https://res.cloudinary.com/demo/image/upload/media/test".data }
    else none

/-- A concrete upstream fetch that always succeeds with a fixed blob and
ETag. -/
def demoFetch : List Char → Option FetchResp :=
  fun _ =>
    some { ok := true, blobType := "image/jpeg".data, blobData := "xy".data,
           etagHeader := some "W-abc".data }

/-- Environment for the conditional-request scenarios. -/
def demoEnv : StaticEnv := { lookup := demoLookup, fetchUrl := demoFetch }

/-- Environment whose upstream fetch throws: the unexpected-exception
path. -/
def failFetchEnv : StaticEnv := { lookup := demoLookup, fetchUrl := fun _ => none }

/-- A destroy capability answering a fixed result everywhere. -/
def constDestroy (res : List Char) : List Char → DestroyOutcome :=
  fun _ => DestroyOutcome.success res

/-- A destroy capability that answers only at the recomputed delete key of
the demo event and throws elsewhere. -/
def keyedDestroy : List Char → DestroyOutcome :=
  fun k =>
    if k = "my/folder/test".data then DestroyOutcome.success "ok".data
    else DestroyOutcome.threw

theorem collapse_cons_exists (b : Char) (t : List Char) :
    ∃ u, collapseHyphens (b :: t) = b :: u := by
  induction t generalizing b with
  | nil => exact ⟨[], rfl⟩
  | cons c t ih =>
    by_cases h : b = '-' ∧ c = '-'
    · obtain ⟨u, hu⟩ := ih c
      refine ⟨u, ?_⟩
      simp only [collapseHyphens, if_pos h]
      rw [hu, h.1, h.2]
    · exact ⟨collapseHyphens (c :: t), by simp only [collapseHyphens, if_neg h]⟩

theorem noDH_collapse (s : List Char) : NoDoubleHyphen (collapseHyphens s) := by
  induction s with
  | nil => exact List.chain'_nil
  | cons a t ih =>
    cases t with
    | nil => exact List.chain'_singleton a
    | cons b t2 =>
      by_cases h : a = '-' ∧ b = '-'
      · simpa only [collapseHyphens, if_pos h] using ih
      · obtain ⟨u, hu⟩ := collapse_cons_exists b t2
        have hc : NoDoubleHyphen (b :: u) := hu ▸ ih
        simp only [collapseHyphens, if_neg h, NoDoubleHyphen, hu]
        exact List.chain'_cons.mpr ⟨h, hc⟩

theorem collapse_fix (s : List Char) (h : NoDoubleHyphen s) : collapseHyphens s = s := by
  induction s with
  | nil => rfl
  | cons a t ih =>
    cases t with
    | nil => rfl
    | cons b t2 =>
      have hab : Rha a b := (List.chain'_cons.mp h).1
      have ht : NoDoubleHyphen (b :: t2) := (List.chain'_cons.mp h).2
      simp only [collapseHyphens, if_neg hab]
      rw [ih ht]

theorem mem_collapse {c : Char} : ∀ {s : List Char}, c ∈ collapseHyphens s → c ∈ s := by
  intro s
  induction s with
  | nil => simp [collapseHyphens]
  | cons a t ih =>
    cases t with
    | nil => simp [collapseHyphens]
    | cons b t2 =>
      by_cases h : a = '-' ∧ b = '-'
      · simp only [collapseHyphens, if_pos h]
        intro hc
        exact List.mem_cons_of_mem a (ih hc)
      · simp only [collapseHyphens, if_neg h]
        intro hc
        rcases List.mem_cons.mp hc with rfl | hc2
        · exact List.mem_cons_self c _
        · exact List.mem_cons_of_mem a (ih hc2)

theorem mem_dropLead {c : Char} {s : List Char} (h : c ∈ dropLeadingHyphen s) : c ∈ s := by
  cases s with
  | nil => simp [dropLeadingHyphen] at h
  | cons a t =>
    by_cases ha : a = '-'
    · simp only [dropLeadingHyphen, if_pos ha] at h
      exact List.mem_cons_of_mem a h
    · simpa only [dropLeadingHyphen, if_neg ha] using h

theorem noDH_dropLead {s : List Char} (h : NoDoubleHyphen s) :
    NoDoubleHyphen (dropLeadingHyphen s) := by
  cases s with
  | nil => exact h
  | cons a t =>
    by_cases ha : a = '-'
    · simp only [dropLeadingHyphen, if_pos ha]
      exact h.tail
    · simpa only [dropLeadingHyphen, if_neg ha] using h

theorem head_dropLead {s : List Char} (h : NoDoubleHyphen s) :
    (dropLeadingHyphen s).head? ≠ some '-' := by
  cases s with
  | nil => simp [dropLeadingHyphen]
  | cons a t =>
    by_cases ha : a = '-'
    · simp only [dropLeadingHyphen, if_pos ha]
      cases t with
      | nil => simp
      | cons b u =>
        have hab : Rha a b := (List.chain'_cons.mp h).1
        simp only [List.head?_cons, ne_eq, Option.some.injEq]
        intro hb
        exact hab ⟨ha, hb⟩
    · simp only [dropLeadingHyphen, if_neg ha, List.head?_cons, ne_eq, Option.some.injEq]
      exact ha

theorem noDH_reverse (s : List Char) : NoDoubleHyphen s.reverse ↔ NoDoubleHyphen s := by
  unfold NoDoubleHyphen
  rw [List.chain'_reverse]
  constructor
  · exact fun h => h.imp (fun a b hab hc => hab ⟨hc.2, hc.1⟩)
  · exact fun h => h.imp (fun a b hab hc => hab ⟨hc.2, hc.1⟩)

theorem mem_dropTrail {c : Char} {s : List Char} (h : c ∈ dropTrailingHyphen s) : c ∈ s := by
  unfold dropTrailingHyphen at h
  rw [List.mem_reverse] at h
  have := mem_dropLead h
  rwa [List.mem_reverse] at this

theorem noDH_dropTrail {s : List Char} (h : NoDoubleHyphen s) :
    NoDoubleHyphen (dropTrailingHyphen s) := by
  unfold dropTrailingHyphen
  exact (noDH_reverse _).mpr (noDH_dropLead ((noDH_reverse s).mpr h))

theorem last_dropTrail {s : List Char} (h : NoDoubleHyphen s) :
    (dropTrailingHyphen s).getLast? ≠ some '-' := by
  unfold dropTrailingHyphen
  rw [List.getLast?_reverse]
  exact head_dropLead ((noDH_reverse s).mpr h)

theorem dropTrail_eq_or (s : List Char) :
    dropTrailingHyphen s = s ∨ dropTrailingHyphen s = s.dropLast := by
  rcases hs : s.reverse with _ | ⟨a, u⟩
  · left
    have : s = [] := by simpa using congrArg List.reverse hs
    subst this
    rfl
  · have hsv : s = u.reverse ++ [a] := by
      have := congrArg List.reverse hs
      simpa [List.reverse_cons] using this
    by_cases ha : a = '-'
    · right
      unfold dropTrailingHyphen
      rw [hs]
      simp only [dropLeadingHyphen, if_pos ha]
      rw [hsv, List.dropLast_concat]
    · left
      unfold dropTrailingHyphen
      rw [hs]
      simp only [dropLeadingHyphen, if_neg ha]
      rw [← hs, List.reverse_reverse]

theorem head?_dropLast_cases (l : List Char) :
    l.dropLast.head? = l.head? ∨ l.dropLast.head? = none := by
  cases l with
  | nil => right; rfl
  | cons a t =>
    cases t with
    | nil => right; rfl
    | cons b u => left; rfl

theorem head_dropTrail {s : List Char} (h : s.head? ≠ some '-') :
    (dropTrailingHyphen s).head? ≠ some '-' := by
  rcases dropTrail_eq_or s with he | he
  · rwa [he]
  · rw [he]
    rcases head?_dropLast_cases s with hc | hc
    · rwa [hc]
    · rw [hc]
      simp

theorem dropLead_fix {s : List Char} (h : s.head? ≠ some '-') :
    dropLeadingHyphen s = s := by
  cases s with
  | nil => rfl
  | cons a t =>
    have ha : a ≠ '-' := by
      intro hc
      exact h (by rw [hc]; rfl)
    simp only [dropLeadingHyphen, if_neg ha]

theorem dropTrail_fix {s : List Char} (h : s.getLast? ≠ some '-') :
    dropTrailingHyphen s = s := by
  unfold dropTrailingHyphen
  have hh : s.reverse.head? ≠ some '-' := by rwa [List.head?_reverse]
  rw [dropLead_fix hh, List.reverse_reverse]

theorem toLower_eq_self_of_toNat {c : Char}
    (h : ¬(65 ≤ c.toNat ∧ c.toNat ≤ 90)) : Char.toLower c = c := by
  unfold Char.toLower
  exact if_neg h

theorem lowerFix_strict : LowerFix strictAllowed := by
  intro c h
  apply toLower_eq_self_of_toNat
  simp only [strictAllowed, Bool.or_eq_true, Bool.and_eq_true, decide_eq_true_eq] at h
  omega

theorem lowerFix_idSafe : LowerFix idSafeAllowed := by
  intro c h
  simp only [idSafeAllowed, strictAllowed, Bool.or_eq_true, Bool.and_eq_true,
    decide_eq_true_eq, beq_iff_eq] at h
  rcases h with (((h | h) | h) | h) | h
  · exact toLower_eq_self_of_toNat (by omega)
  · exact toLower_eq_self_of_toNat (by omega)
  · subst h; decide
  · subst h; decide
  · subst h; decide

theorem okChar_sanitizeMap (allowed : Char → Bool) (s : List Char) :
    ∀ c ∈ sanitizeMap allowed s, okCharP allowed c := by
  intro c hc
  rw [sanitizeMap, List.mem_map] at hc
  obtain ⟨a, _, rfl⟩ := hc
  unfold replaceChar
  by_cases h : allowed (Char.toLower a)
  · rw [if_pos h]; exact Or.inl h
  · rw [if_neg h]; exact Or.inr rfl

theorem replaceMap_fix {allowed : Char → Bool} (hLF : LowerFix allowed)
    {s : List Char} (h : ∀ c ∈ s, okCharP allowed c) :
    sanitizeMap allowed s = s := by
  induction s with
  | nil => rfl
  | cons a t ih =>
    have ha := h a (List.mem_cons_self a t)
    have htail : sanitizeMap allowed t = t :=
      ih (fun c hc => h c (List.mem_cons_of_mem a hc))
    show replaceChar allowed (Char.toLower a) :: sanitizeMap allowed t = a :: t
    rw [htail]
    rcases ha with hall | hdash
    · rw [hLF a hall]
      unfold replaceChar
      rw [if_pos hall]
    · subst hdash
      have hl : Char.toLower '-' = '-' := by decide
      rw [hl]
      unfold replaceChar
      split <;> rfl

theorem okChar_sanitizeCore (allowed : Char → Bool) (s : List Char) :
    ∀ c ∈ sanitizeCore allowed s, okCharP allowed c := by
  intro c hc
  unfold sanitizeCore stripHyphens at hc
  exact okChar_sanitizeMap allowed s c (mem_collapse (mem_dropLead (mem_dropTrail hc)))

theorem noDH_sanitizeCore (allowed : Char → Bool) (s : List Char) :
    NoDoubleHyphen (sanitizeCore allowed s) := by
  unfold sanitizeCore stripHyphens
  exact noDH_dropTrail (noDH_dropLead (noDH_collapse _))

theorem head_sanitizeCore (allowed : Char → Bool) (s : List Char) :
    (sanitizeCore allowed s).head? ≠ some '-' := by
  unfold sanitizeCore stripHyphens
  exact head_dropTrail (head_dropLead (noDH_collapse _))

theorem last_sanitizeCore (allowed : Char → Bool) (s : List Char) :
    (sanitizeCore allowed s).getLast? ≠ some '-' := by
  unfold sanitizeCore stripHyphens
  exact last_dropTrail (noDH_dropLead (noDH_collapse _))

theorem sanitizeCore_fix {allowed : Char → Bool} (hLF : LowerFix allowed)
    {y : List Char} (hchars : ∀ c ∈ y, okCharP allowed c)
    (hnd : NoDoubleHyphen y) (hh : y.head? ≠ some '-')
    (hl : y.getLast? ≠ some '-') : sanitizeCore allowed y = y := by
  unfold sanitizeCore stripHyphens
  rw [replaceMap_fix hLF hchars, collapse_fix y hnd, dropLead_fix hh, dropTrail_fix hl]

theorem sanitizeCore_idem (allowed : Char → Bool) (hLF : LowerFix allowed) (s : List Char) :
    sanitizeCore allowed (sanitizeCore allowed s) = sanitizeCore allowed s :=
  sanitizeCore_fix hLF (okChar_sanitizeCore allowed s) (noDH_sanitizeCore allowed s)
    (head_sanitizeCore allowed s) (last_sanitizeCore allowed s)

theorem char_toNat_ofNat_small {n : Nat} (h : n < 55296) : (Char.ofNat n).toNat = n := by
  unfold Char.ofNat
  rw [dif_pos (Or.inl h : Nat.isValidChar n)]
  unfold Char.ofNatAux Char.toNat
  simp [UInt32.toNat]

theorem toLower_idem (c : Char) : Char.toLower (Char.toLower c) = Char.toLower c := by
  by_cases h : 65 ≤ c.toNat ∧ c.toNat ≤ 90
  · have h1 : Char.toLower c = Char.ofNat (c.toNat + 32) := by
      unfold Char.toLower
      exact if_pos h
    rw [h1]
    apply toLower_eq_self_of_toNat
    have hv : (Char.ofNat (c.toNat + 32)).toNat = c.toNat + 32 :=
      char_toNat_ofNat_small (by omega)
    omega
  · have h1 := toLower_eq_self_of_toNat h
    rw [h1]
    exact h1

/-! ### Claims -/

/-- C1: evaluating the `part_002` identifier generator at the repository's
own unit-test input (`"test.raw"`, raw kind, `useFilename`, `uniqueFilename`
and `keepRawExtension` all true, `Date.now()` mocked to `1234567890123`).
The code concatenates the preserved extension BEFORE the uniqueness
timestamp and yields `"my/folder/test.raw_1234567890123"`, while the claim,
the spec and the repository's test `part_000` expect
`"my/folder/test_1234567890123.raw"`. -/
theorem c1_keepRawExtension_eval :
    generatePublicIDUpload 1234567890123 "test.raw".data "my/folder".data "raw".data
        (some { enabled := some true, useFilename := some true,
                uniqueFilename := some true, keepRawExtension := some true })
      = "my/folder/test.raw_1234567890123".data
    ∧ generatePublicIDUpload 1234567890123 "test.raw".data "my/folder".data "raw".data
        (some { enabled := some true, useFilename := some true,
                uniqueFilename := some true, keepRawExtension := some true })
      ≠ "my/folder/test_1234567890123.raw".data :=
  ⟨by decide, by decide⟩

/-- C2: within one `fetchResource` invocation the attempt with the full
filename is always the first attempt made; when the first attempt does not
fail, no second attempt is made; when it fails, the second and last attempt
is the extension-stripped id; and when the first fails while the stripped
attempt succeeds, the result is the stripped lookup — the request succeeds
via the second attempt, not the first. -/
theorem c2_lookup_order (lookup : List Char → List Char → Option CloudResource)
    (rtype publicId : List Char) :
    (fetchResource lookup rtype publicId).1.head? = some publicId
    ∧ (attemptFails lookup publicId rtype = false →
        (fetchResource lookup rtype publicId).1 = [publicId])
    ∧ (attemptFails lookup publicId rtype = true →
        (fetchResource lookup rtype publicId).1
          = [publicId, stripExtRegex publicId])
    ∧ (attemptFails lookup publicId rtype = true →
        attemptFails lookup (stripExtRegex publicId) rtype = false →
        (fetchResource lookup rtype publicId).2
          = lookup (stripExtRegex publicId) rtype) := by
  refine ⟨?_, ?_, ?_, ?_⟩
  · rcases hp : lookup publicId rtype with _ | r
    · simp [fetchResource, fetchResourceGo, hp]
    · by_cases he : r.secure_url.isEmpty <;>
        simp [fetchResource, fetchResourceGo, hp, he]
  · intro h
    rcases hp : lookup publicId rtype with _ | r
    · simp [attemptFails, hp] at h
    · simp only [attemptFails, hp] at h
      simp [fetchResource, fetchResourceGo, hp, h]
  · intro h
    rcases hp : lookup publicId rtype with _ | r
    · rcases hq : lookup (stripExtRegex publicId) rtype with _ | r2
      · simp [fetchResource, fetchResourceGo, hp, hq]
      · by_cases he2 : r2.secure_url.isEmpty <;>
          simp [fetchResource, fetchResourceGo, hp, hq, he2]
    · simp only [attemptFails, hp] at h
      rcases hq : lookup (stripExtRegex publicId) rtype with _ | r2
      · simp [fetchResource, fetchResourceGo, hp, hq, h]
      · by_cases he2 : r2.secure_url.isEmpty <;>
          simp [fetchResource, fetchResourceGo, hp, hq, h, he2]
  · intro h1 h2
    rcases hq : lookup (stripExtRegex publicId) rtype with _ | r2
    · simp [attemptFails, hq] at h2
    · simp only [attemptFails, hq] at h2
      rcases hp : lookup publicId rtype with _ | r
      · simp [fetchResource, fetchResourceGo, hp, hq, h2]
      · simp only [attemptFails, hp] at h1
        simp [fetchResource, fetchResourceGo, hp, hq, h1, h2]

/-- C2 witness: in the demo store only the extension-stripped key
`"media/test"` exists; the request for `"media/test.jpg"` makes both
attempts in order and succeeds with the stripped lookup. -/
theorem c2_lookup_order_witness :
    attemptFails demoLookup "media/test.jpg".data "image".data = true
    ∧ (fetchResource demoLookup "image".data "media/test.jpg".data).1
        = ["media/test.jpg".data, "media/test".data]
    ∧ (fetchResource demoLookup "image".data "media/test.jpg".data).2
        = demoLookup "media/test".data "image".data := by
  have h := c2_lookup_order demoLookup "image".data "media/test.jpg".data
  refine ⟨by decide, ?_, ?_⟩
  · have h3 := h.2.2.1 (by decide)
    rw [h3]
    decide
  · have h4 := h.2.2.2 (by decide) (by decide)
    rw [h4]
    decide

/-- C3 counterexample: with `enabled:false`, `keepRawExtension:true` and raw
kind, the `part_002` generator (as its own unit test confirms) preserves the
extension: `"test.txt"` maps to `"my/folder/test.txt"`, not to the
extension-stripped `"my/folder/test"` the claim requires. -/
theorem c3_enabled_false_keeps_extension :
    generatePublicIDUpload 0 "test.txt".data "my/folder".data "raw".data
        (some { enabled := some false, keepRawExtension := some true })
      = "my/folder/test.txt".data
    ∧ "my/folder/test.txt".data ≠ "my/folder/test".data :=
  ⟨by decide, by decide⟩

/-- C3 amended: with `enabled:false` and no custom generator neither
generator ever appends a uniqueness token (the right-hand sides do not
mention `now`, `useFilename` or `uniqueFilename`); the `utils.ts` generator
always strips the extension, while the `part_002` generator appends the
original extension to the sanitized stem exactly when `keepRawExtension` is
true and the kind is raw. -/
theorem c3_enabled_false_shape :
    (∀ (now : Nat) (fn fp : List Char) (u q k : Option Bool),
      generatePublicIDUtils now fn fp
          (some { enabled := some false, useFilename := u, uniqueFilename := q,
                  keepRawExtension := k })
        = posixJoin2 fp (sanitizeForPublicIDUtils (pathBasenameExt fn (pathExtname fn))))
    ∧ (∀ (now : Nat) (fn fp rt : List Char) (u q k : Option Bool),
      generatePublicIDUpload now fn fp rt
          (some { enabled := some false, useFilename := u, uniqueFilename := q,
                  keepRawExtension := k })
        = posixJoin2 fp
            (if k == some true && rt == "raw".data then
              sanitizeForPublicIDUpload
                  (pathBasenameExt (pathBasename fn) (pathExtname (pathBasename fn)))
                ++ pathExtname (pathBasename fn)
            else
              sanitizeForPublicIDUpload
                  (pathBasenameExt (pathBasename fn) (pathExtname (pathBasename fn))))) := by
  constructor
  · intro now fn fp u q k
    rfl
  · intro now fn fp rt u q k
    rfl

/-- C4 counterexample: the `utils.ts` generator sanitizes the filename
portion of the key with the STRICT charset, so the underscore and the dot of
`"file_name.v2.txt"` do not survive: the identifier is
`"media/file-name-v2"`, not `"media/file_name.v2"`. -/
theorem c4_strict_charset_in_utils :
    generatePublicIDUtils 0 "file_name.v2.txt".data "media".data
        (some { uniqueFilename := some false })
      = "media/file-name-v2".data
    ∧ "media/file-name-v2".data ≠ "media/file_name.v2".data :=
  ⟨by decide, by decide⟩

/-- C4 amended: the identifier-safe charset (letters, digits, underscore,
dot, hyphen) governs the `part_002` sanitizer — every output character is in
that set, and underscores and dots survive (the repository's own test
vector) — while the `utils.ts` strict variant replaces underscores and dots
with hyphens. -/
theorem c4_idsafe_charset :
    (∀ s : List Char, (sanitizeForPublicIDUpload s).all idSafeAllowed = true)
    ∧ sanitizeForPublicIDUpload "file_name.with-dots.TXT".data
        = "file_name.with-dots.txt".data
    ∧ sanitizeForPublicIDUtils "file_name.with-dots.TXT".data
        = "file-name-with-dots-txt".data := by
  refine ⟨?_, by decide, by decide⟩
  intro s
  rw [List.all_eq_true]
  intro c hc
  rcases okChar_sanitizeCore idSafeAllowed s c hc with h | h
  · exact h
  · subst h
    decide

/-- C5 counterexample: `sanitizeString` of `validation.ts` truncates to 100
characters after stripping, which can expose a trailing hyphen; on
ninety-nine `a`s followed by `"!b"` a second application strips that hyphen
again, so the function is not idempotent. -/
theorem c5_sanitizeString_not_idem :
    sanitizeString (sanitizeString (List.replicate 99 'a' ++ ['!', 'b']))
      ≠ sanitizeString (List.replicate 99 'a' ++ ['!', 'b']) := by
  decide

/-- C5 amended: both non-truncating sanitizer variants — the strict
`sanitizeForPublicID` of `utils.ts` and the identifier-safe
`sanitizeForPublicID` of `part_002` — are idempotent; only the truncating
`sanitizeString` is not. -/
theorem c5_sanitizers_idem (s : List Char) :
    sanitizeForPublicIDUtils (sanitizeForPublicIDUtils s) = sanitizeForPublicIDUtils s
    ∧ sanitizeForPublicIDUpload (sanitizeForPublicIDUpload s) = sanitizeForPublicIDUpload s :=
  ⟨sanitizeCore_idem strictAllowed lowerFix_strict s,
   sanitizeCore_idem idSafeAllowed lowerFix_idSafe s⟩

/-- C6: extension classification as performed at the call sites (the
extension is lower-cased, then looked up) is total — every extension maps to
exactly one of image, video, raw, auto — with `auto` for the empty
extension; it is case-insensitive; every extension whose lower-casing is in
the image set classifies as image; and `".JPG"` classifies like `".jpg"`. -/
theorem c6_classification :
    (∀ e : List Char,
      classifyExtension e = "image".data ∨ classifyExtension e = "video".data
      ∨ classifyExtension e = "raw".data ∨ classifyExtension e = "auto".data)
    ∧ classifyExtension [] = "auto".data
    ∧ (∀ e : List Char, classifyExtension (e.map Char.toLower) = classifyExtension e)
    ∧ (∀ e : List Char, e.map Char.toLower ∈ IMAGE_EXTENSIONS →
        classifyExtension e = "image".data)
    ∧ classifyExtension ".JPG".data = classifyExtension ".jpg".data := by
  refine ⟨?_, by decide, ?_, ?_, by decide⟩
  · intro e
    unfold classifyExtension getResourceType
    split_ifs <;> decide
  · intro e
    unfold classifyExtension
    congr 1
    rw [List.map_map]
    exact List.map_congr_left (fun a _ => toLower_idem a)
  · intro e h
    unfold classifyExtension getResourceType
    simp only [IMAGE_EXTENSIONS, List.mem_cons, List.not_mem_nil, or_false] at h
    rcases h with h | h | h | h | h | h | h | h <;> rw [h] <;> decide

/-- C6 witness: `".JPG"` lower-cases into the image set and classifies as
image. -/
theorem c6_classification_witness :
    List.map Char.toLower ".JPG".data ∈ IMAGE_EXTENSIONS
    ∧ classifyExtension ".JPG".data = "image".data :=
  ⟨by decide, c6_classification.2.2.2.1 ".JPG".data (by decide)⟩

/-- C7 counterexample: a matching `If-None-Match` yields a 304 with no body,
but the response carries a `Content-Type` header in addition to `ETag`, so
it does not carry only the `ETag` header. -/
theorem c7_304_carries_content_type :
    (staticHandlerRun demoEnv "media".data [] "test.jpg".data []
        (some "W-abc".data) 7).status = 304
    ∧ (staticHandlerRun demoEnv "media".data [] "test.jpg".data []
        (some "W-abc".data) 7).body = none
    ∧ (staticHandlerRun demoEnv "media".data [] "test.jpg".data []
        (some "W-abc".data) 7).headers
        = [("Content-Type".data, "image/jpeg".data), ("ETag".data, "W-abc".data)]
    ∧ (staticHandlerRun demoEnv "media".data [] "test.jpg".data []
        (some "W-abc".data) 7).headers
        ≠ [("ETag".data, "W-abc".data)] :=
  ⟨by decide, by decide, by decide, by decide⟩

/-- C7 amended: whenever the resource resolves, the upstream fetch succeeds
and the request's `If-None-Match` equals the computed validator, the
response is status 304 with no body and exactly two headers: `Content-Type`
(the blob type) and `ETag` (the same validator). -/
theorem c7_304_shape (env : StaticEnv) (folder pref filename reqUrl : List Char)
    (now : Nat) (r : CloudResource) (resp : FetchResp)
    (h1 : (fetchResource env.lookup
            (getResourceType ((pathExtname filename).map Char.toLower))
            (posixJoin3 folder pref filename)).2 = some r)
    (h2 : env.fetchUrl
            (processResourceUrl r.secure_url
              (((pathExtname filename).map Char.toLower) == ".pdf".data
                && containsSub reqUrl "thumbnail=true".data)) = some resp)
    (h3 : resp.ok = true) :
    staticHandlerRun env folder pref filename reqUrl
        (some (computeResponseEtag resp.etagHeader now)) now
      = { status := 304
          headers := [("Content-Type".data, resp.blobType),
                      ("ETag".data, computeResponseEtag resp.etagHeader now)]
          body := none } := by
  simp [staticHandlerRun, serveResolved, h1, h2, h3]

/-- C7 witness: the amended 304 shape at the demo environment. -/
theorem c7_304_shape_witness :
    staticHandlerRun demoEnv "media".data [] "test.jpg".data []
        (some (computeResponseEtag (some "W-abc".data) 7)) 7
      = { status := 304
          headers := [("Content-Type".data, "image/jpeg".data),
                      ("ETag".data, computeResponseEtag (some "W-abc".data) 7)]
          body := none } := by
  have h := c7_304_shape demoEnv "media".data [] "test.jpg".data [] 7
      { secure_url := "https://res.cloudinary.com/demo/image/upload/media/test".data }
      { ok := true, blobType := "image/jpeg".data, blobData := "xy".data,
        etagHeader := some "W-abc".data }
      (by decide) (by decide) (by decide)
  exact h

/-- C8 counterexample: when the upstream fetch throws, the handler emits a
500 whose body is the string `"Internal Server Error"` — not an empty
body. -/
theorem c8_500_body_not_empty :
    (staticHandlerRun failFetchEnv "media".data [] "test.jpg".data [] none 7).status = 500
    ∧ (staticHandlerRun failFetchEnv "media".data [] "test.jpg".data [] none 7).body
        = some "Internal Server Error".data
    ∧ (staticHandlerRun failFetchEnv "media".data [] "test.jpg".data [] none 7).body ≠ none
    ∧ (staticHandlerRun failFetchEnv "media".data [] "test.jpg".data [] none 7).body ≠ some [] :=
  ⟨by decide, by decide, by decide, by decide⟩

/-- C8 amended: for every request in which an unexpected exception is raised
in the serve path (the upstream fetch throws after the resource resolved),
the response has status 500, no headers, and the body
`"Internal Server Error"`. -/
theorem c8_500_shape (env : StaticEnv) (folder pref filename reqUrl : List Char)
    (inm : Option (List Char)) (now : Nat) (r : CloudResource)
    (h1 : (fetchResource env.lookup
            (getResourceType ((pathExtname filename).map Char.toLower))
            (posixJoin3 folder pref filename)).2 = some r)
    (h2 : env.fetchUrl
            (processResourceUrl r.secure_url
              (((pathExtname filename).map Char.toLower) == ".pdf".data
                && containsSub reqUrl "thumbnail=true".data)) = none) :
    staticHandlerRun env folder pref filename reqUrl inm now
      = { status := 500, headers := [], body := some "Internal Server Error".data } := by
  simp [staticHandlerRun, serveResolved, h1, h2]

/-- C8 witness: the amended 500 shape at the environment whose fetch
throws. -/
theorem c8_500_shape_witness :
    staticHandlerRun failFetchEnv "media".data [] "test.jpg".data [] none 7
      = { status := 500, headers := [], body := some "Internal Server Error".data } := by
  have h := c8_500_shape failFetchEnv "media".data [] "test.jpg".data [] none 7
      { secure_url := "https://res.cloudinary.com/demo/image/upload/media/test".data }
      (by decide) (by decide)
  exact h

/-- C9 counterexample: an unexpected destroy result (`"error"`) and a thrown
remote error both make `handleDelete` raise `CloudinaryDeleteError` — the
operation does not return normally, contradicting the claim that remote
failures never propagate. -/
theorem c9_delete_error_propagates :
    handleDelete (constDestroy "error".data) "my/folder".data "test.jpg".data
      = DeleteResult.deleteError "my/folder/test".data
    ∧ handleDelete (constDestroy "error".data) "my/folder".data "test.jpg".data
        ≠ DeleteResult.ok
    ∧ handleDelete (fun _ => DestroyOutcome.threw) "my/folder".data "test.jpg".data
      = DeleteResult.deleteError "test.jpg".data :=
  ⟨by decide, by decide, by decide⟩

/-- C9 amended: `handleDelete` returns normally exactly when the remote
destroy answers `"ok"` or `"not found"` — so a `"not found"` result is
treated as success (delete is idempotent there), but a failed call or any
other result raises an error that propagates to the host. -/
theorem c9_delete_ok_iff (destroy : List Char → DestroyOutcome)
    (folder filename : List Char) :
    handleDelete destroy folder filename = DeleteResult.ok
      ↔ destroy (deleteKey folder filename) = DestroyOutcome.success "ok".data
        ∨ destroy (deleteKey folder filename) = DestroyOutcome.success "not found".data := by
  cases hd : destroy (deleteKey folder filename) with
  | success res =>
    by_cases h1 : res = "ok".data
    · simp [handleDelete, hd, h1]
    · by_cases h2 : res = "not found".data
      · simp [handleDelete, hd, h1, h2]
      · simp [handleDelete, hd, h1, h2]
  | threw => simp [handleDelete, hd]

/-- C10 counterexample: the key passed to destroy is recomputed from the
filename — `join(folder, filename)` minus the extension — and differs from
the stored upload metadata identifier, which carries the uniqueness
timestamp produced at upload time. -/
theorem c10_delete_key_not_stored_identifier :
    deleteKey "my/folder".data "test.jpg".data = "my/folder/test".data
    ∧ generatePublicIDUtils 1234567890123 "test.jpg".data "my/folder".data none
        = "my/folder/test_1234567890123".data
    ∧ deleteKey "my/folder".data "test.jpg".data
        ≠ generatePublicIDUtils 1234567890123 "test.jpg".data "my/folder".data none :=
  ⟨by decide, by decide, by decide⟩

/-- C10 amended: the delete handler consults the remote destroy capability
only at the key recomputed from the filename (`deleteKey`), so its outcome
is independent of everything else — in particular of any stored metadata
identifier, which it never reads. -/
theorem c10_delete_depends_only_on_filename_key
    (d1 d2 : List Char → DestroyOutcome) (folder filename : List Char)
    (h : d1 (deleteKey folder filename) = d2 (deleteKey folder filename)) :
    handleDelete d1 folder filename = handleDelete d2 folder filename := by
  simp only [handleDelete]
  rw [h]

/-- C10 witness: two destroy capabilities that agree only at the recomputed
key produce the same delete outcome. -/
theorem c10_delete_depends_witness :
    constDestroy "ok".data (deleteKey "my/folder".data "test.jpg".data)
      = keyedDestroy (deleteKey "my/folder".data "test.jpg".data)
    ∧ handleDelete (constDestroy "ok".data) "my/folder".data "test.jpg".data
      = handleDelete keyedDestroy "my/folder".data "test.jpg".data :=
  ⟨by decide, c10_delete_depends_only_on_filename_key _ _ _ _ (by decide)⟩
